import Mathlib

/-!
Verification of the spatio-temporal matching engine of GetXPosure
(`GetXPosure/location_matching.py`).

The engine consists of two functions:

* `EDM(A, B)`: pairwise Euclidean distance matrix via the expanded
  squared-distance identity `|a|^2 + |b|^2 - 2*a.b`, with the square root
  rounded to two decimal places (`np.round(np.sqrt(p1+p2+p3), 2)`).
* `show_matches(gpx_gdf, exp_gdf, minimum_distance)`: builds the distance
  matrix and the two temporal difference matrices, selects all index pairs
  with `distance < minimum_distance`, `arrival - time < 0` and
  `departure - time > 0` via `np.where` (row-major order), then reduces the
  pair list to one report entry per exposure site by repeatedly taking the
  head pair and filtering out every pair with the same exposure index.

Numbers are modelled exactly: the float64 coordinates, epochs and distances
of the source become rationals, and `np.round(·, 2)` becomes rounding to the
nearest multiple of 1/100 with ties to even (numpy's rounding mode).
-/

namespace GetXPosure

/-- One row of `gpx_gdf`: a GPS fix.  `x`/`y` are the projected planar
coordinates stacked into the matrix `A`, `time_epoch` is the epoch-seconds
timestamp, `latitude`/`longitude` are carried only for reporting. -/
structure TrackPoint where
  x : ℚ
  y : ℚ
  time_epoch : ℚ
  latitude : ℚ
  longitude : ℚ
  deriving Repr, DecidableEq

/-- One row of `exp_gdf`: an exposure site.  `x`/`y` are the projected planar
coordinates stacked into the matrix `B`, `arrival_epoch`/`departure_epoch`
the window bounds in epoch seconds; the string fields (`USER_SiteName`,
`USER_Contact`, formatted date) are carried only for reporting. -/
structure ExposureSite where
  x : ℚ
  y : ℚ
  arrival_epoch : ℚ
  departure_epoch : ℚ
  siteName : String
  contact : String
  dateText : String
  deriving Repr, DecidableEq

/-- Junk row used by list lookups at out-of-range indices (never reached for
in-range indices). -/
def defaultPoint : TrackPoint := ⟨0, 0, 0, 0, 0⟩

/-- Junk row used by list lookups at out-of-range indices. -/
def defaultSite : ExposureSite := ⟨0, 0, 0, 0, "", "", ""⟩

/-! ### Rounding the square root to two decimals

`np.round(np.sqrt s, 2)` is modelled exactly as the nearest multiple of
1/100 of the true square root, ties to even (numpy rounds half to even).
The nearest integer to `√s` is computed from the integer square root of
`⌊s⌋`, comparing `4*s` against `(2*k+1)^2` to decide the rounding
direction. -/

/-- Largest natural `k` with `k^2 ≤ s` (for `s ≥ 0`). -/
def isqrtFloorQ (s : ℚ) : ℕ := Nat.sqrt (Int.toNat ⌊s⌋)

/-- Nearest natural number to `√s` (for `s ≥ 0`), ties to even. -/
def nearestSqrt (s : ℚ) : ℕ :=
  let k := isqrtFloorQ s
  if 4 * s < ((2 * k + 1 : ℕ) : ℚ) ^ 2 then k
  else if ((2 * k + 1 : ℕ) : ℚ) ^ 2 < 4 * s then k + 1
  else if k % 2 = 0 then k else k + 1

/-! ### The distance matrix `EDM`

`EDM(A, B)` in the source computes `p1 = np.sum(A**2, axis=1)[:, None]`,
`p2 = np.sum(B**2, axis=1)`, `p3 = -2 * np.dot(A, B.T)` and returns
`np.round(np.sqrt(p1 + p2 + p3), 2)`.  There is no clamping of the radicand
before the square root.  Here the coordinates are exact rationals, entry
`(i, j)` of each intermediate matrix is a function of the two rows, and the
rounded square root is the nearest multiple of 1/100 of the true root. -/

/-- Entry `(i, j)` of `p1 + p2 + p3`: the radicand fed to `np.sqrt`. -/
def edmRadicand (a b : ℚ × ℚ) : ℚ :=
  (a.1 ^ 2 + a.2 ^ 2) + (b.1 ^ 2 + b.2 ^ 2) + (-2 * (a.1 * b.1 + a.2 * b.2))

/-- Entry `(i, j)` of `EDM(A, B)`: the square root of the radicand rounded
to two decimal places, as a rational (a multiple of 1/100).  Rows beyond the
lists' lengths read the junk pair `(0, 0)`. -/
def EDM (A B : List (ℚ × ℚ)) (i j : ℕ) : ℚ :=
  (nearestSqrt (10000 * edmRadicand (A.getD i (0, 0)) (B.getD j (0, 0))) : ℚ) / 100

/-! ### The matching pipeline `show_matches`

The source builds the stacked array of `distances`, `pre_array`
(`arrivals[None, :] - presence[:, None]`) and `post_array`
(`departures[None, :] - presence[:, None]`), then takes
`np.where(distances < minimum_distance & pre < 0 & post > 0)`.  `np.where`
enumerates the `n × m` grid in row-major order (track index ascending, site
index ascending within a row), so the candidate list is the row-major grid
filtered by the joint predicate. -/

/-- The planar coordinates stacked into `A = np.vstack(gpx_gdf['geometry'])`. -/
def coordsOfTracks (T : List TrackPoint) : List (ℚ × ℚ) :=
  T.map fun p => (p.x, p.y)

/-- The planar coordinates stacked into `B = np.vstack(exp_gdf['geometry'])`. -/
def coordsOfSites (E : List ExposureSite) : List (ℚ × ℚ) :=
  E.map fun e => (e.x, e.y)

/-- Entry `(i, j)` of `pre_array`: `arrival[j] - time[i]`. -/
def preEntry (T : List TrackPoint) (E : List ExposureSite) (i j : ℕ) : ℚ :=
  (E.getD j defaultSite).arrival_epoch - (T.getD i defaultPoint).time_epoch

/-- Entry `(i, j)` of `post_array`: `departure[j] - time[i]`. -/
def postEntry (T : List TrackPoint) (E : List ExposureSite) (i j : ℕ) : ℚ :=
  (E.getD j defaultSite).departure_epoch - (T.getD i defaultPoint).time_epoch

/-- The joint predicate of the `np.where` query:
`distance < minimum_distance` and `pre < 0` and `post > 0`. -/
def matchBool (T : List TrackPoint) (E : List ExposureSite) (d : ℚ) (i j : ℕ) : Bool :=
  decide (EDM (coordsOfTracks T) (coordsOfSites E) i j < d) &&
    decide (preEntry T E i j < 0) && decide (0 < postEntry T E i j)

/-- The row-major `n × m` index grid that `np.where` scans. -/
def indexGrid (n m : ℕ) : List (ℕ × ℕ) :=
  (List.range n).flatMap fun i => (List.range m).map fun j => (i, j)

/-- `index_pairs`: the `np.where` result as a list of `(gpx_id, exp_id)`
pairs in row-major order. -/
def candidatePairs (T : List TrackPoint) (E : List ExposureSite) (d : ℚ) :
    List (ℕ × ℕ) :=
  (indexGrid T.length E.length).filter fun p => matchBool T E d p.1 p.2

/-- The `while` loop of `show_matches`: take the head pair, report it, and
remove every pair sharing its exposure index (`exp_id != pair[1]`), until
the list is empty. -/
def reduceLoop : List (ℕ × ℕ) → List (ℕ × ℕ)
  | [] => []
  | p :: rest =>
      p :: reduceLoop ((p :: rest).filter fun q => q.2 != p.2)
termination_by l => l.length
decreasing_by
  simp only [List.filter_cons, bne_self_eq_false, List.length_cons]
  exact Nat.lt_succ_of_le (List.length_filter_le _ _)

/-- One printed report block: the representative track point and the
exposure site it matched, fetched by `iloc` from the two dataframes. -/
structure ReportEntry where
  gpx_id : ℕ
  exp_id : ℕ
  point : TrackPoint
  site : ExposureSite
  deriving Repr, DecidableEq

/-- Builds the report block for a surviving `(gpx_id, exp_id)` pair. -/
def mkEntry (T : List TrackPoint) (E : List ExposureSite) (p : ℕ × ℕ) :
    ReportEntry :=
  { gpx_id := p.1, exp_id := p.2,
    point := T.getD p.1 defaultPoint, site := E.getD p.2 defaultSite }

/-- The matching engine `show_matches`.  `np.vstack` raises
`ValueError: need at least one array to concatenate` when handed an empty
sequence, so an empty track set (line 22) or an empty exposure set
(line 23) aborts before any matrix is computed; otherwise the run prints
one report block per surviving pair (or the "no exposures" message) and
the result is the ordered report list. -/
def show_matches (T : List TrackPoint) (E : List ExposureSite)
    (minimum_distance : ℚ) : Except String (List ReportEntry) :=
  if T.isEmpty then Except.error ("need at least one array to concatenate")
  else if E.isEmpty then Except.error ("need at least one array to concatenate")
  else Except.ok ((reduceLoop (candidatePairs T E minimum_distance)).map (mkEntry T E))

/-- State-passing form of a run: the engine reads the two dataframes and
returns its result together with the final state of the inputs.  No
statement of `show_matches` (lines 13-66 of the source) assigns into
`gpx_gdf` or `exp_gdf`, so the final state is the initial state. -/
def show_matchesRun (T : List TrackPoint) (E : List ExposureSite)
    (minimum_distance : ℚ) :
    Except String (List ReportEntry) × (List TrackPoint × List ExposureSite) :=
  (show_matches T E minimum_distance, (T, E))

/-- Reference definition for C4, following the spec's words: the naive
per-pair Euclidean distance `sqrt((ax-bx)^2 + (ay-by)^2)`. -/
noncomputable def naiveDist (a b : ℚ × ℚ) : ℝ :=
  Real.sqrt (((a.1 : ℝ) - (b.1 : ℝ)) ^ 2 + ((a.2 : ℝ) - (b.2 : ℝ)) ^ 2)

/-! ### IEEE binary64 model of the radicand evaluation

`EDM` runs on float64 data.  The exact-rational model above shows the
radicand is a true squared distance, hence never negative — but float64
evaluation rounds after every operation, and the cancellation
`p1 + p2 - 2*dot` can then land strictly below zero, in which case
`np.sqrt` yields NaN (the source has no clamp).  The two definitions below
model IEEE-754 binary64 arithmetic in the normal range: every numpy
operation is correctly rounded to 53 significant bits, round-to-nearest
with ties to even. -/

/-- Nearest integer to `x`, ties to even. -/
def roundHalfEven (x : ℚ) : ℤ :=
  if x - ⌊x⌋ < 1 / 2 then ⌊x⌋
  else if 1 / 2 < x - ⌊x⌋ then ⌊x⌋ + 1
  else if 2 ∣ ⌊x⌋ then ⌊x⌋ else ⌊x⌋ + 1

/-- Correct rounding of a rational to IEEE binary64 (normal range, no
overflow/underflow handling — the inputs below stay far inside it):
round the 53-bit scaled mantissa to nearest, ties to even. -/
def fl64 (q : ℚ) : ℚ :=
  if q = 0 then 0
  else
    (if q < 0 then -1 else 1) *
      ((roundHalfEven (|q| * 2 ^ ((52 : ℤ) - Int.log 2 |q|)) : ℚ) *
        2 ^ (Int.log 2 |q| - 52))

/-- Float64 evaluation of the radicand `p1 + p2 + p3` that `EDM` feeds to
`np.sqrt`, for one track point `(a1, a2)` and one site `(b1, b2)`: each
numpy operation (elementwise square, axis sum, dot product, scaling,
broadcasted sums) is one correctly rounded binary64 operation. -/
def EDMfloatRadicand (a1 a2 b1 b2 : ℚ) : ℚ :=
  let p1 := fl64 (fl64 (a1 * a1) + fl64 (a2 * a2))
  let p2 := fl64 (fl64 (b1 * b1) + fl64 (b2 * b2))
  let dot := fl64 (fl64 (a1 * b1) + fl64 (a2 * b2))
  let p3 := fl64 (-2 * dot)
  fl64 (fl64 (p1 + p2) + p3)

/-- Float64 entry of `EDM` for one track point `(a1, a2)` and one site
`(b1, b2)`, including the square-root step: `np.sqrt` of a negative
radicand is NaN and `np.round` propagates it, so a NaN entry is modelled
as `none`.  On a nonnegative radicand the root is rounded to two decimals
as in `EDM` (the binary64 rounding of the root itself, below the 2-decimal
granularity, is dropped; the theorems below only exercise the NaN
branch). -/
def EDMfloat64 (a1 a2 b1 b2 : ℚ) : Option ℚ :=
  let rad := EDMfloatRadicand a1 a2 b1 b2
  if rad < 0 then none
  else some ((nearestSqrt (10000 * rad) : ℚ) / 100)

/-! ### Witness datasets (small concrete runs) -/

/-- One track point at the origin at epoch 1000. -/
def trackA : List TrackPoint := [⟨0, 0, 1000, 0, 0⟩]

/-- Two track points at the origin, epochs 1000 and 1001 (Scenario D). -/
def trackD : List TrackPoint := [⟨0, 0, 1000, 0, 0⟩, ⟨0, 0, 1001, 0, 0⟩]

/-- One track point at the origin exactly at the site's arrival epoch. -/
def trackB : List TrackPoint := [⟨0, 0, 900, 0, 0⟩]

/-- One exposure site 50 m away, window (900, 1100). -/
def siteNear : List ExposureSite :=
  [{ x := 50, y := 0, arrival_epoch := 900, departure_epoch := 1100,
     siteName := "", contact := "", dateText := "" }]

/-- One exposure site at the origin, window (900, 1100). -/
def siteD : List ExposureSite :=
  [{ x := 0, y := 0, arrival_epoch := 900, departure_epoch := 1100,
     siteName := "", contact := "", dateText := "" }]

/-- One exposure site at the origin with an inverted window (1100 > 900). -/
def siteInv : List ExposureSite :=
  [{ x := 0, y := 0, arrival_epoch := 1100, departure_epoch := 900,
     siteName := "", contact := "", dateText := "" }]

/-- One exposure site at the origin with a zero-length window. -/
def siteZero : List ExposureSite :=
  [{ x := 0, y := 0, arrival_epoch := 1000, departure_epoch := 1000,
     siteName := "", contact := "", dateText := "" }]

theorem isqrtFloorQ_bracket {s : ℚ} (hs : 0 ≤ s) :
    ((isqrtFloorQ s : ℚ) ^ 2 ≤ s ∧ s < ((isqrtFloorQ s : ℚ) + 1) ^ 2) := by
  set n : ℕ := Int.toNat ⌊s⌋ with hn
  have hfloor : (n : ℤ) = ⌊s⌋ := Int.toNat_of_nonneg (Int.floor_nonneg.mpr hs)
  have h1 : (Nat.sqrt n : ℚ) ^ 2 ≤ s := by
    have hle : (Nat.sqrt n) ^ 2 ≤ n := Nat.sqrt_le' n
    have : ((Nat.sqrt n : ℤ) ^ 2 : ℤ) ≤ ⌊s⌋ := by
      rw [← hfloor]; exact_mod_cast hle
    calc ((Nat.sqrt n : ℚ)) ^ 2 = (((Nat.sqrt n : ℤ) ^ 2 : ℤ) : ℚ) := by push_cast; ring
      _ ≤ (⌊s⌋ : ℚ) := by exact_mod_cast this
      _ ≤ s := Int.floor_le s
  have h2 : s < ((Nat.sqrt n : ℚ) + 1) ^ 2 := by
    have hlt : n < (Nat.sqrt n + 1) ^ 2 := by
      have := Nat.lt_succ_sqrt' n
      simpa [Nat.succ_eq_add_one] using this
    have hint : ⌊s⌋ + 1 ≤ ((Nat.sqrt n + 1 : ℕ) ^ 2 : ℤ) := by
      rw [← hfloor]; exact_mod_cast hlt
    calc s < (⌊s⌋ : ℚ) + 1 := Int.lt_floor_add_one s
      _ ≤ (((Nat.sqrt n + 1 : ℕ) ^ 2 : ℤ) : ℚ) := by exact_mod_cast hint
      _ = ((Nat.sqrt n : ℚ) + 1) ^ 2 := by push_cast; ring
  exact ⟨h1, h2⟩

/-- The floor square root is determined by its bracketing property. -/
theorem isqrtFloorQ_eq {s : ℚ} {k : ℕ} (h1 : (k : ℚ) ^ 2 ≤ s)
    (h2 : s < ((k : ℚ) + 1) ^ 2) : isqrtFloorQ s = k := by
  have hs : 0 ≤ s := le_trans (by positivity) h1
  obtain ⟨b1, b2⟩ := isqrtFloorQ_bracket hs
  by_contra hne
  rcases Nat.lt_or_ge (isqrtFloorQ s) k with h | h
  · have : (isqrtFloorQ s : ℚ) + 1 ≤ (k : ℚ) := by exact_mod_cast Nat.succ_le_of_lt h
    have : ((isqrtFloorQ s : ℚ) + 1) ^ 2 ≤ (k : ℚ) ^ 2 := by
      apply pow_le_pow_left₀ (by positivity) this
    exact absurd (lt_of_lt_of_le b2 (le_trans this h1)) (lt_irrefl s)
  · have hk : k < isqrtFloorQ s := lt_of_le_of_ne h (fun h' => hne h'.symm)
    have : (k : ℚ) + 1 ≤ (isqrtFloorQ s : ℚ) := by exact_mod_cast Nat.succ_le_of_lt hk
    have : ((k : ℚ) + 1) ^ 2 ≤ (isqrtFloorQ s : ℚ) ^ 2 := by
      apply pow_le_pow_left₀ (by positivity) this
    exact absurd (lt_of_lt_of_le h2 (le_trans this b1)) (lt_irrefl s)

/-- Evaluation rule for `nearestSqrt`, round-down case. -/
theorem nearestSqrt_eq_down {s : ℚ} {k : ℕ} (h1 : (k : ℚ) ^ 2 ≤ s)
    (h2 : s < ((k : ℚ) + 1) ^ 2) (h3 : 4 * s < ((2 * k + 1 : ℕ) : ℚ) ^ 2) :
    nearestSqrt s = k := by
  rw [nearestSqrt, isqrtFloorQ_eq h1 h2]
  push_cast at h3 ⊢
  rw [if_pos h3]

/-- Evaluation rule for `nearestSqrt`, round-up case. -/
theorem nearestSqrt_eq_up {s : ℚ} {k : ℕ} (h1 : (k : ℚ) ^ 2 ≤ s)
    (h2 : s < ((k : ℚ) + 1) ^ 2) (h3 : ((2 * k + 1 : ℕ) : ℚ) ^ 2 < 4 * s) :
    nearestSqrt s = k + 1 := by
  rw [nearestSqrt, isqrtFloorQ_eq h1 h2]
  push_cast at h3 ⊢
  rw [if_neg (not_lt.mpr h3.le), if_pos h3]

/-- The nearest integer to `√s` is within 1/2 of the real square root. -/
theorem nearestSqrt_close {s : ℚ} (hs : 0 ≤ s) :
    |(nearestSqrt s : ℝ) - Real.sqrt (s : ℝ)| ≤ 1 / 2 := by
  obtain ⟨b1, b2⟩ := isqrtFloorQ_bracket hs
  set k : ℕ := isqrtFloorQ s with hk
  have hsR : (0 : ℝ) ≤ (s : ℝ) := by exact_mod_cast hs
  have hb1R : ((k : ℝ)) ^ 2 ≤ (s : ℝ) := by exact_mod_cast b1
  have hb2R : (s : ℝ) < ((k : ℝ) + 1) ^ 2 := by exact_mod_cast b2
  have hlo : (k : ℝ) ≤ Real.sqrt (s : ℝ) := by
    rw [show ((k : ℝ)) = Real.sqrt ((k : ℝ) ^ 2) from (Real.sqrt_sq (by positivity)).symm]
    exact Real.sqrt_le_sqrt hb1R
  have hhi : Real.sqrt (s : ℝ) < (k : ℝ) + 1 := by
    rw [show ((k : ℝ) + 1) = Real.sqrt (((k : ℝ) + 1) ^ 2) from
      (Real.sqrt_sq (by positivity)).symm]
    exact Real.sqrt_lt_sqrt hsR hb2R
  rw [nearestSqrt, ← hk]
  rcases lt_trichotomy (4 * s) (((2 * k + 1 : ℕ) : ℚ) ^ 2) with h | h | h
  · have hmid : Real.sqrt (s : ℝ) < (k : ℝ) + 1 / 2 := by
      have hR : (s : ℝ) < ((k : ℝ) + 1 / 2) ^ 2 := by
        have := (Rat.cast_lt (K := ℝ)).mpr h
        push_cast at this; nlinarith
      rw [show ((k : ℝ) + 1 / 2) = Real.sqrt (((k : ℝ) + 1 / 2) ^ 2) from
        (Real.sqrt_sq (by positivity)).symm]
      exact Real.sqrt_lt_sqrt hsR hR
    rw [if_pos h, abs_le]
    constructor <;> nlinarith [hlo, hmid]
  · have hmid : Real.sqrt (s : ℝ) = (k : ℝ) + 1 / 2 := by
      have hR : (s : ℝ) = ((k : ℝ) + 1 / 2) ^ 2 := by
        have := (Rat.cast_injective (α := ℝ)) (congrArg _ h)
        have h' : (4 : ℝ) * (s : ℝ) = (((2 * k + 1 : ℕ) : ℚ) : ℝ) ^ 2 := by
          exact_mod_cast congrArg (fun q : ℚ => (q : ℝ)) h
        push_cast at h'; nlinarith
      rw [hR, Real.sqrt_sq (by positivity)]
    have hne1 : ¬4 * s < ((2 * k + 1 : ℕ) : ℚ) ^ 2 := by
      rw [← h]; exact lt_irrefl _
    have hne2 : ¬((2 * k + 1 : ℕ) : ℚ) ^ 2 < 4 * s := by
      rw [← h]; exact lt_irrefl _
    rw [if_neg hne1, if_neg hne2]
    rcases Nat.decEq (k % 2) 0 with h2 | h2
    · rw [if_neg h2, hmid]; push_cast; rw [abs_le]; constructor <;> nlinarith
    · rw [if_pos h2, hmid]; rw [abs_le]; constructor <;> nlinarith
  · have hmid : (k : ℝ) + 1 / 2 < Real.sqrt (s : ℝ) := by
      have hR : ((k : ℝ) + 1 / 2) ^ 2 < (s : ℝ) := by
        have := (Rat.cast_lt (K := ℝ)).mpr h
        push_cast at this; nlinarith
      have := Real.sqrt_lt_sqrt (by positivity) hR
      rwa [Real.sqrt_sq (by positivity)] at this
    rw [if_neg (not_lt.mpr h.le), if_pos h, abs_le]
    push_cast
    constructor <;> nlinarith [hmid, hhi]

/-- In exact arithmetic the expanded identity is the squared distance. -/
theorem edmRadicand_eq (a b : ℚ × ℚ) :
    edmRadicand a b = (a.1 - b.1) ^ 2 + (a.2 - b.2) ^ 2 := by
  rw [edmRadicand]; ring

/-- In exact arithmetic the radicand is never negative. -/
theorem edmRadicand_nonneg (a b : ℚ × ℚ) : 0 ≤ edmRadicand a b := by
  rw [edmRadicand_eq]; positivity

/-! ### Structure of the candidate list -/

theorem mem_indexGrid {n m : ℕ} {p : ℕ × ℕ} :
    p ∈ indexGrid n m ↔ p.1 < n ∧ p.2 < m := by
  simp only [indexGrid, List.mem_flatMap, List.mem_map, List.mem_range]
  constructor
  · rintro ⟨i, hi, j, hj, rfl⟩; exact ⟨hi, hj⟩
  · rintro ⟨h1, h2⟩; exact ⟨p.1, h1, p.2, h2, rfl⟩

/-- Membership in `index_pairs`: in-range indices satisfying the joint
predicate. -/
theorem mem_candidatePairs {T : List TrackPoint} {E : List ExposureSite}
    {d : ℚ} {p : ℕ × ℕ} :
    p ∈ candidatePairs T E d ↔
      p.1 < T.length ∧ p.2 < E.length ∧ matchBool T E d p.1 p.2 = true := by
  rw [candidatePairs, List.mem_filter, mem_indexGrid, and_assoc]

/-- The row-major grid is sorted by track index. -/
theorem indexGrid_pairwise (n m : ℕ) :
    (indexGrid n m).Pairwise fun p q => p.1 ≤ q.1 := by
  induction n with
  | zero => simp [indexGrid]
  | succ n ih =>
      rw [indexGrid, List.range_succ, List.flatMap_append, List.pairwise_append]
      refine ⟨ih, ?_, ?_⟩
      · simp only [List.flatMap_cons, List.flatMap_nil, List.append_nil,
          List.pairwise_map]
        exact (List.pairwise_lt_range m).imp fun _ => le_refl n
      · intro a ha b hb
        have h1 : a.1 < n := (mem_indexGrid.mp ha).1
        simp only [List.flatMap_cons, List.flatMap_nil, List.append_nil,
          List.mem_map] at hb
        obtain ⟨j, _, rfl⟩ := hb
        exact le_of_lt h1

/-- The candidate list inherits the row-major sortedness. -/
theorem candidatePairs_pairwise (T : List TrackPoint) (E : List ExposureSite)
    (d : ℚ) : (candidatePairs T E d).Pairwise fun p q => p.1 ≤ q.1 :=
  (indexGrid_pairwise _ _).sublist (List.filter_sublist _)

/-- Filtering with a predicate that keeps everything the search predicate
accepts does not change the result of `find?`. -/
theorem find?_filter_of_imp {α : Type} (l : List α) (p f : α → Bool)
    (h : ∀ x, p x = true → f x = true) :
    (l.filter f).find? p = l.find? p := by
  induction l with
  | nil => rfl
  | cons x xs ih =>
      rw [List.filter_cons]
      by_cases hf : f x = true
      · rw [if_pos hf]
        by_cases hp : p x = true
        · rw [List.find?_cons_of_pos _ hp, List.find?_cons_of_pos _ hp]
        · rw [List.find?_cons_of_neg _ hp, List.find?_cons_of_neg _ hp, ih]
      · have hp : ¬p x = true := fun hpx => hf (h x hpx)
        rw [if_neg hf, List.find?_cons_of_neg _ hp, ih]

/-- On a list sorted by track index, `find?` returns a pair whose track
index is minimal among the accepted pairs. -/
theorem find?_min_fst {l : List (ℕ × ℕ)} {f : ℕ × ℕ → Bool} {a : ℕ × ℕ}
    (hp : l.Pairwise fun p q => p.1 ≤ q.1) (ha : l.find? f = some a) :
    ∀ b ∈ l, f b = true → a.1 ≤ b.1 := by
  induction l with
  | nil => cases ha
  | cons x xs ih =>
      intro b hb hfb
      by_cases hx : f x = true
      · rw [List.find?_cons_of_pos _ hx, Option.some_inj] at ha
        subst ha
        rcases List.mem_cons.mp hb with rfl | hb
        · exact le_refl _
        · exact (List.pairwise_cons.mp hp).1 b hb
      · rw [List.find?_cons_of_neg _ hx] at ha
        rcases List.mem_cons.mp hb with rfl | hb
        · exact absurd hfb hx
        · exact ih (List.pairwise_cons.mp hp).2 ha b hb hfb

/-! ### Properties of the reduction loop -/

/-- The loop on the empty candidate list reports nothing. -/
theorem reduceLoop_nil : reduceLoop [] = [] := by
  rw [reduceLoop]

/-- The head of the filter step fails its own test, so filtering the whole
list equals filtering the tail. -/
theorem filter_cons_self (p : ℕ × ℕ) (rest : List (ℕ × ℕ)) :
    ((p :: rest).filter fun q => q.2 != p.2) =
      rest.filter fun q => q.2 != p.2 := by
  simp [List.filter_cons]

/-- Unfolding rule for one iteration of the `while` loop. -/
theorem reduceLoop_cons (p : ℕ × ℕ) (rest : List (ℕ × ℕ)) :
    reduceLoop (p :: rest) =
      p :: reduceLoop (rest.filter fun q => q.2 != p.2) := by
  rw [reduceLoop]
  simp [List.filter_cons]

/-- Everything the loop reports was a candidate pair. -/
theorem reduceLoop_subset : ∀ (l : List (ℕ × ℕ)), ∀ a ∈ reduceLoop l, a ∈ l := by
  intro l
  induction l using reduceLoop.induct with
  | case1 => intro a ha; rw [reduceLoop_nil] at ha; cases ha
  | case2 p rest ih =>
      intro a ha
      rw [reduceLoop_cons] at ha
      rcases List.mem_cons.mp ha with rfl | ha
      · exact List.mem_cons_self _ _
      · have : a ∈ (p :: rest).filter fun q => q.2 != p.2 := by
          have := ih a (by rw [filter_cons_self]; exact ha)
          exact this
        exact List.mem_of_mem_filter this

/-- No two reported pairs share an exposure-site index. -/
theorem reduceLoop_snd_nodup :
    ∀ (l : List (ℕ × ℕ)), ((reduceLoop l).map Prod.snd).Nodup := by
  intro l
  induction l using reduceLoop.induct with
  | case1 => rw [reduceLoop_nil]; exact List.nodup_nil
  | case2 p rest ih =>
      rw [reduceLoop_cons, List.map_cons, List.nodup_cons]
      refine ⟨?_, by rw [filter_cons_self] at ih; exact ih⟩
      intro hmem
      simp only [List.mem_map] at hmem
      obtain ⟨a, ha, hsnd⟩ := hmem
      have : a ∈ rest.filter fun q => q.2 != p.2 :=
        reduceLoop_subset _ a ha
      have := (List.mem_filter.mp this).2
      rw [hsnd] at this
      simp at this

/-- A reported pair is the first candidate carrying its exposure index. -/
theorem reduceLoop_mem_find? :
    ∀ (l : List (ℕ × ℕ)) {g j : ℕ}, (g, j) ∈ reduceLoop l →
      l.find? (fun q => q.2 == j) = some (g, j) := by
  intro l
  induction l using reduceLoop.induct with
  | case1 => intro g j h; rw [reduceLoop_nil] at h; cases h
  | case2 p rest ih =>
      intro g j h
      rw [reduceLoop_cons] at h
      rcases List.mem_cons.mp h with heq | h
      · rw [show p = (g, j) from heq.symm]
        exact List.find?_cons_of_pos _ (by simp)
      · have hmemfil : (g, j) ∈ rest.filter fun q => q.2 != p.2 :=
          reduceLoop_subset _ _ h
        have hne : j ≠ p.2 := by
          have := (List.mem_filter.mp hmemfil).2
          simpa using this
        have hthis := ih (by rw [filter_cons_self]; exact h)
        rw [filter_cons_self] at hthis
        rw [find?_filter_of_imp rest (fun q => q.2 == j) (fun q => q.2 != p.2)
          (fun x hx => by
            have hxj : x.2 = j := by simpa using hx
            simp [hxj, hne])] at hthis
        rw [List.find?_cons_of_neg _ (by simp [Ne.symm hne]), hthis]

/-- Every exposure index with a candidate is reported: the loop keeps the
first candidate `find?` locates for that index. -/
theorem reduceLoop_find?_mem :
    ∀ (l : List (ℕ × ℕ)) {j : ℕ} {a : ℕ × ℕ},
      l.find? (fun q => q.2 == j) = some a → a ∈ reduceLoop l := by
  intro l
  induction l using reduceLoop.induct with
  | case1 => intro j a h; cases h
  | case2 p rest ih =>
      intro j a h
      rw [reduceLoop_cons]
      by_cases hx : p.2 = j
      · rw [List.find?_cons_of_pos _ (by simp [hx]), Option.some_inj] at h
        subst h
        exact List.mem_cons_self _ _
      · rw [List.find?_cons_of_neg _ (by simp [hx])] at h
        have hne : j ≠ p.2 := fun h' => hx h'.symm
        have hfind : (rest.filter fun q => q.2 != p.2).find?
            (fun q => q.2 == j) = some a := by
          rw [find?_filter_of_imp rest (fun q => q.2 == j)
            (fun q => q.2 != p.2) (fun x hxj => by
              have hxx : x.2 = j := by simpa using hxj
              simp [hxx, hne])]
          exact h
        have hmem := ih (j := j) (by rw [filter_cons_self]; exact hfind)
        rw [filter_cons_self] at hmem
        exact List.mem_cons_of_mem _ hmem

/-- Helper: the site never matches any track point when its window is
degenerate or inverted (`departure <= arrival`), because the predicate
requires `arrival < time < departure`. -/
theorem window_le_no_candidate {T : List TrackPoint} {E : List ExposureSite}
    {d : ℚ} {j : ℕ}
    (hw : (E.getD j defaultSite).departure_epoch ≤
      (E.getD j defaultSite).arrival_epoch) :
    ∀ i, (i, j) ∉ candidatePairs T E d := by
  intro i hmem
  obtain ⟨-, -, hb⟩ := mem_candidatePairs.mp hmem
  rw [matchBool] at hb
  simp only [Bool.and_eq_true, decide_eq_true_eq, preEntry, postEntry] at hb
  obtain ⟨⟨-, hpre⟩, hpost⟩ := hb
  linarith

/-- Helper: `nearestSqrt 0 = 0` (distance of coincident points). -/
theorem nearestSqrt_zero : nearestSqrt 0 = 0 :=
  nearestSqrt_eq_down (k := 0) (by norm_num) (by norm_num) (by norm_num)

/-- Evaluation of the distance entry for coincident origin points. -/
theorem EDM_trackD_siteD : EDM (coordsOfTracks trackD) (coordsOfSites siteD) 0 0 = 0 := by
  have hrad : edmRadicand (0 : ℚ × ℚ) (0 : ℚ × ℚ) = 0 := by
    rw [edmRadicand_eq]; norm_num
  simp [EDM, coordsOfTracks, coordsOfSites, trackD, siteD, hrad, nearestSqrt_zero]

/-- The first track point of Scenario D is a candidate for site 0. -/
theorem trackD_candidate : (0, 0) ∈ candidatePairs trackD siteD 100 := by
  rw [mem_candidatePairs]
  refine ⟨by simp [trackD], by simp [siteD], ?_⟩
  rw [matchBool]
  simp only [Bool.and_eq_true, decide_eq_true_eq, preEntry, postEntry,
    EDM_trackD_siteD]
  refine ⟨⟨by norm_num, ?_⟩, ?_⟩ <;> simp [trackD, siteD] <;> norm_num

/-! ### The claims -/

/-- C1: a pair `(i, j)` over the two datasets is a match candidate iff
`D[i][j] < minimum_distance` (strictly) and
`arrival[j] < time[i] < departure[j]` (strictly); consequently a pair
exactly at the distance threshold, at the arrival instant, or at the
departure instant is not a candidate. -/
theorem matchCandidate_iff (T : List TrackPoint) (E : List ExposureSite)
    (d : ℚ) (i j : ℕ) (hi : i < T.length) (hj : j < E.length) :
    ((i, j) ∈ candidatePairs T E d ↔
      (EDM (coordsOfTracks T) (coordsOfSites E) i j < d ∧
        (E.getD j defaultSite).arrival_epoch <
          (T.getD i defaultPoint).time_epoch ∧
        (T.getD i defaultPoint).time_epoch <
          (E.getD j defaultSite).departure_epoch)) ∧
      (EDM (coordsOfTracks T) (coordsOfSites E) i j = d →
        (i, j) ∉ candidatePairs T E d) ∧
      ((T.getD i defaultPoint).time_epoch =
          (E.getD j defaultSite).arrival_epoch →
        (i, j) ∉ candidatePairs T E d) ∧
      ((T.getD i defaultPoint).time_epoch =
          (E.getD j defaultSite).departure_epoch →
        (i, j) ∉ candidatePairs T E d) := by
  have hmain : (i, j) ∈ candidatePairs T E d ↔
      (EDM (coordsOfTracks T) (coordsOfSites E) i j < d ∧
        (E.getD j defaultSite).arrival_epoch <
          (T.getD i defaultPoint).time_epoch ∧
        (T.getD i defaultPoint).time_epoch <
          (E.getD j defaultSite).departure_epoch) := by
    rw [mem_candidatePairs, matchBool]
    simp only [Bool.and_eq_true, decide_eq_true_eq, preEntry, postEntry,
      sub_neg, sub_pos]
    constructor
    · rintro ⟨-, -, ⟨h1, h2⟩, h3⟩; exact ⟨h1, h2, h3⟩
    · rintro ⟨h1, h2, h3⟩; exact ⟨hi, hj, ⟨h1, h2⟩, h3⟩
  refine ⟨hmain, ?_, ?_, ?_⟩
  · intro heq hmem
    exact absurd (hmain.mp hmem).1 (by rw [heq]; exact lt_irrefl d)
  · intro heq hmem
    exact absurd (hmain.mp hmem).2.1 (by rw [heq]; exact lt_irrefl _)
  · intro heq hmem
    exact absurd (hmain.mp hmem).2.2 (by rw [heq]; exact lt_irrefl _)

/-- Witness for C1: a track point exactly at the arrival instant of a site
50 m away is not a match candidate. -/
theorem matchCandidate_iff_witness : (0, 0) ∉ candidatePairs trackB siteNear 100 :=
  (matchCandidate_iff trackB siteNear 100 0 0 (by simp [trackB])
    (by simp [siteNear])).2.2.1 (by simp [trackB, siteNear])

/-- C3: the reduction emits at most one report entry per distinct
exposure-site index, every reported pair is a candidate (so a site with no
candidate produces no entry), and the site of any candidate is reported
with the first-encountered candidate of the row-major scan as its
representative — the candidate with the lowest track-point index. -/
theorem reduction_one_entry_per_site (T : List TrackPoint)
    (E : List ExposureSite) (d : ℚ) (j : ℕ)
    (h : ∃ i, (i, j) ∈ candidatePairs T E d) :
    ((reduceLoop (candidatePairs T E d)).map Prod.snd).Nodup ∧
      (∀ q ∈ reduceLoop (candidatePairs T E d), q ∈ candidatePairs T E d) ∧
      ∃ g, (g, j) ∈ reduceLoop (candidatePairs T E d) ∧
        (candidatePairs T E d).find? (fun q => q.2 == j) = some (g, j) ∧
        ∀ i, (i, j) ∈ candidatePairs T E d → g ≤ i := by
  refine ⟨reduceLoop_snd_nodup _, reduceLoop_subset _, ?_⟩
  obtain ⟨i, hi⟩ := h
  have hsome : ((candidatePairs T E d).find? (fun q => q.2 == j)).isSome := by
    rw [List.find?_isSome]
    exact ⟨(i, j), hi, by simp⟩
  obtain ⟨a, ha⟩ := Option.isSome_iff_exists.mp hsome
  have haj : a.2 = j := by simpa using List.find?_some ha
  have ha' : (candidatePairs T E d).find? (fun q => q.2 == j) = some (a.1, j) := by
    rw [ha, Option.some_inj]
    exact Prod.ext rfl haj
  refine ⟨a.1, reduceLoop_find?_mem _ ha', ha', ?_⟩
  intro i' hi'
  exact find?_min_fst (candidatePairs_pairwise T E d) ha' (i', j) hi' (by simp)

/-- Witness for C3 at Scenario D: two coincident track points against one
site; the reduction reports site 0 with the lower track index. -/
theorem reduction_one_entry_per_site_witness :
    ((reduceLoop (candidatePairs trackD siteD 100)).map Prod.snd).Nodup ∧
      (∀ q ∈ reduceLoop (candidatePairs trackD siteD 100),
        q ∈ candidatePairs trackD siteD 100) ∧
      ∃ g, (g, 0) ∈ reduceLoop (candidatePairs trackD siteD 100) ∧
        (candidatePairs trackD siteD 100).find? (fun q => q.2 == 0) = some (g, 0) ∧
        ∀ i, (i, 0) ∈ candidatePairs trackD siteD 100 → g ≤ i :=
  reduction_one_entry_per_site trackD siteD 100 0 ⟨0, trackD_candidate⟩

/-- C6: an exposure record with an inverted window (`arrival > departure`)
is still scanned (its column is part of the row-major grid), yet no track
point forms a candidate with it and it never reaches the report. -/
theorem invalid_window_never_reported (T : List TrackPoint)
    (E : List ExposureSite) (d : ℚ) (j : ℕ) (hj : j < E.length)
    (hw : (E.getD j defaultSite).departure_epoch <
      (E.getD j defaultSite).arrival_epoch) :
    (∀ i, i < T.length → (i, j) ∈ indexGrid T.length E.length) ∧
      ∀ i, (i, j) ∉ candidatePairs T E d ∧
        (i, j) ∉ reduceLoop (candidatePairs T E d) := by
  refine ⟨fun i hi => mem_indexGrid.mpr ⟨hi, hj⟩, fun i => ⟨?_, ?_⟩⟩
  · exact window_le_no_candidate hw.le i
  · intro hmem
    exact window_le_no_candidate hw.le i (reduceLoop_subset _ _ hmem)

/-- Witness for C6: a site whose arrival (1100) is after its departure
(900) is scanned but never matched by a point sitting on it. -/
theorem invalid_window_never_reported_witness :
    (∀ i, i < trackA.length → (i, 0) ∈ indexGrid trackA.length siteInv.length) ∧
      ∀ i, (i, 0) ∉ candidatePairs trackA siteInv 100 ∧
        (i, 0) ∉ reduceLoop (candidatePairs trackA siteInv 100) :=
  invalid_window_never_reported trackA siteInv 100 0 (by simp [siteInv])
    (by simp [siteInv]; norm_num)

/-- C9: a zero-length window (`arrival = departure`) satisfies the
`arrival <= departure` invariant but can never produce a match candidate,
because the temporal predicate is strict on both sides. -/
theorem zero_length_window_never_matches (T : List TrackPoint)
    (E : List ExposureSite) (d : ℚ) (j : ℕ) (hj : j < E.length)
    (hw : (E.getD j defaultSite).arrival_epoch =
      (E.getD j defaultSite).departure_epoch) :
    ∀ i, (i, j) ∉ candidatePairs T E d ∧
      (i, j) ∉ reduceLoop (candidatePairs T E d) := by
  intro i
  refine ⟨window_le_no_candidate hw.ge i, fun hmem => ?_⟩
  exact window_le_no_candidate hw.ge i (reduceLoop_subset _ _ hmem)

/-- Witness for C9: a site visited exactly at the single instant of its
zero-length window still never matches. -/
theorem zero_length_window_never_matches_witness :
    (0, 0) ∉ candidatePairs trackA siteZero 100 ∧
      (0, 0) ∉ reduceLoop (candidatePairs trackA siteZero 100) :=
  zero_length_window_never_matches trackA siteZero 100 0 (by simp [siteZero])
    (by simp [siteZero]) 0

/-- C10: each iteration of the reduction loop removes at least the head
pair (every pair sharing its exposure index is filtered out), so the
remaining list is strictly shorter and the loop terminates. -/
theorem reduceLoop_step_decreases (p : ℕ × ℕ) (l : List (ℕ × ℕ)) :
    reduceLoop (p :: l) =
        p :: reduceLoop ((p :: l).filter fun q => q.2 != p.2) ∧
      ((p :: l).filter fun q => q.2 != p.2).length < (p :: l).length := by
  constructor
  · rw [reduceLoop]
  · rw [filter_cons_self]
    exact Nat.lt_succ_of_le (Nat.le_trans (List.length_filter_le _ _) (le_refl _))

/-- Background bound: in exact (infinite-precision) arithmetic the
matrix-identity entry rounded to two decimals is within 0.01 of the naive
per-pair Euclidean distance — the identity itself is exact and only the
2-decimal rounding (at most 0.005) remains.  Any violation of the 0.01
tolerance on the program is therefore a float64 effect; see the C4
refutation below. -/
theorem EDM_close_to_naive (A B : List (ℚ × ℚ)) (i j : ℕ)
    (hi : i < A.length) (hj : j < B.length) :
    |((EDM A B i j : ℚ) : ℝ) - naiveDist (A.getD i (0, 0)) (B.getD j (0, 0))| ≤
      1 / 100 := by
  set a := A.getD i (0, 0)
  set b := B.getD j (0, 0)
  set s : ℚ := 10000 * edmRadicand a b with hs_def
  have hrad : (0 : ℚ) ≤ edmRadicand a b := edmRadicand_nonneg a b
  have hs : (0 : ℚ) ≤ s := by positivity
  have hclose := nearestSqrt_close hs
  have hsqrt_s : Real.sqrt (s : ℝ) = 100 * Real.sqrt ((edmRadicand a b : ℚ) : ℝ) := by
    have hcast : ((s : ℚ) : ℝ) = 10000 * ((edmRadicand a b : ℚ) : ℝ) := by
      rw [hs_def]; push_cast; ring
    rw [hcast, show (10000 : ℝ) = 100 ^ 2 by norm_num, Real.sqrt_mul (by positivity),
      Real.sqrt_sq (by norm_num)]
  have hnaive : Real.sqrt ((edmRadicand a b : ℚ) : ℝ) = naiveDist a b := by
    rw [naiveDist, edmRadicand_eq]
    congr 1
    push_cast
    ring
  have hEDM : ((EDM A B i j : ℚ) : ℝ) = (nearestSqrt s : ℝ) / 100 := by
    rw [EDM]
    push_cast
    ring
  rw [hEDM, ← hnaive, show Real.sqrt ((edmRadicand a b : ℚ) : ℝ) =
    Real.sqrt (s : ℝ) / 100 by rw [hsqrt_s]; ring]
  have habs : |(nearestSqrt s : ℝ) / 100 - Real.sqrt (s : ℝ) / 100| =
      |(nearestSqrt s : ℝ) - Real.sqrt (s : ℝ)| / 100 := by
    rw [div_sub_div_same, abs_div, abs_of_pos (show (0 : ℝ) < 100 by norm_num)]
  rw [habs]
  calc |(nearestSqrt s : ℝ) - Real.sqrt (s : ℝ)| / 100 ≤ (1 / 2) / 100 := by
        apply div_le_div_of_nonneg_right hclose (by norm_num) |>.trans (le_refl _)
    _ ≤ 1 / 100 := by norm_num

/-- Concrete instance of the exact-arithmetic bound at the 3-4-5
triangle. -/
theorem EDM_close_to_naive_witness :
    |((EDM [((0 : ℚ), (0 : ℚ))] [((3 : ℚ), (4 : ℚ))] 0 0 : ℚ) : ℝ) -
        naiveDist ([((0 : ℚ), (0 : ℚ))].getD 0 (0, 0))
          ([((3 : ℚ), (4 : ℚ))].getD 0 (0, 0))| ≤ 1 / 100 :=
  EDM_close_to_naive [((0 : ℚ), (0 : ℚ))] [((3 : ℚ), (4 : ℚ))] 0 0
    (by simp) (by simp)

theorem roundHalfEven_eq_down {x : ℚ} {n : ℤ} (h1 : (n : ℚ) ≤ x)
    (h2 : x < (n : ℚ) + 1 / 2) : roundHalfEven x = n := by
  have hfl : ⌊x⌋ = n := Int.floor_eq_iff.mpr ⟨h1, by linarith⟩
  rw [roundHalfEven, hfl, if_pos (by linarith)]

theorem roundHalfEven_eq_up {x : ℚ} {n : ℤ} (h1 : (n : ℚ) + 1 / 2 < x)
    (h2 : x < (n : ℚ) + 1) : roundHalfEven x = n + 1 := by
  have hfl : ⌊x⌋ = n := Int.floor_eq_iff.mpr ⟨by linarith, h2⟩
  rw [roundHalfEven, hfl, if_neg (by linarith), if_pos (by linarith)]

/-- Helper: the binary logarithm is determined by a binade bracket. -/
theorem int_log_eq {q : ℚ} {e : ℤ} (hq : 0 < q) (h1 : (2 : ℚ) ^ e ≤ q)
    (h2 : q < (2 : ℚ) ^ (e + 1)) : Int.log 2 q = e := by
  have h1' : ((2 : ℕ) : ℚ) ^ e ≤ q := by exact_mod_cast h1
  have h2' : q < ((2 : ℕ) : ℚ) ^ (e + 1) := by exact_mod_cast h2
  have ha : e ≤ Int.log 2 q := (Int.zpow_le_iff_le_log (by norm_num) hq).mp h1'
  have hb : Int.log 2 q < e + 1 := (Int.lt_zpow_iff_log_lt (by norm_num) hq).mp h2'
  omega

/-- Evaluation rule for `fl64` on a positive rational bracketed in the
binade `[2^e, 2^(e+1))`. -/
theorem fl64_eq_of_pos {q r : ℚ} {e m : ℤ} (hq : 0 < q)
    (h1 : (2 : ℚ) ^ e ≤ q) (h2 : q < (2 : ℚ) ^ (e + 1))
    (hm : roundHalfEven (q * 2 ^ ((52 : ℤ) - e)) = m)
    (hr : (m : ℚ) * 2 ^ (e - 52) = r) : fl64 q = r := by
  have hlog : Int.log 2 q = e := int_log_eq hq h1 h2
  rw [fl64, if_neg hq.ne', if_neg (not_lt.mpr hq.le), abs_of_pos hq, hlog, hm,
    hr, one_mul]

/-- Evaluation rule for `fl64` on a negative rational. -/
theorem fl64_eq_of_neg {q r : ℚ} {e m : ℤ} (hq : q < 0)
    (h1 : (2 : ℚ) ^ e ≤ -q) (h2 : -q < (2 : ℚ) ^ (e + 1))
    (hm : roundHalfEven (-q * 2 ^ ((52 : ℤ) - e)) = m)
    (hr : -((m : ℚ) * 2 ^ (e - 52)) = r) : fl64 q = r := by
  have hlog : Int.log 2 (-q) = e := int_log_eq (by linarith) h1 h2
  rw [fl64, if_neg hq.ne, if_pos hq, abs_of_neg hq, hlog, hm, neg_one_mul, hr]

/-- Helper: for the nearly coincident MGA2020-scale points
`(613436.4244112402, 6084743.373693723)` and
`(613436.4244117677, 6084743.373693233)` — given here as the exact values
of those float64 coordinates — the binary64 evaluation of `EDM`'s radicand
`p1 + p2 + p3` is exactly `-1/64`, one correctly rounded step at a time. -/
theorem EDMfloatRadicand_neg_eval :
    EDMfloatRadicand ((5269378762042905 : ℚ) / 8589934592)
        ((1633360862160453 : ℚ) / 268435456)
        ((5269378762047437 : ℚ) / 8589934592)
        ((3266721724320643 : ℚ) / 536870912) = ((-1 : ℚ) / 64) := by
  have h_sqax : fl64 ((5269378762042905 : ℚ) / 8589934592 *
      ((5269378762042905 : ℚ) / 8589934592)) = ((3082684389740111 : ℚ) / 8192) :=
    fl64_eq_of_pos (e := 38) (by norm_num) (by norm_num) (by norm_num)
      (roundHalfEven_eq_down (n := 6165368779480222) (by norm_num) (by norm_num))
      (by norm_num)
  have h_sqay : fl64 ((1633360862160453 : ℚ) / 268435456 *
      ((1633360862160453 : ℚ) / 268435456)) = ((2369542523117419 : ℚ) / 64) :=
    fl64_eq_of_pos (e := 45) (by norm_num) (by norm_num) (by norm_num)
      (roundHalfEven_eq_down (n := 4739085046234838) (by norm_num) (by norm_num))
      (by norm_num)
  have h_p1 : fl64 ((3082684389740111 : ℚ) / 8192 + (2369542523117419 : ℚ) / 64) =
      ((4787251989824527 : ℚ) / 128) :=
    fl64_eq_of_pos (e := 45) (by norm_num) (by norm_num) (by norm_num)
      (roundHalfEven_eq_down (n := 4787251989824527) (by norm_num) (by norm_num))
      (by norm_num)
  have h_sqbx : fl64 ((5269378762047437 : ℚ) / 8589934592 *
      ((5269378762047437 : ℚ) / 8589934592)) = ((6165368779490827 : ℚ) / 16384) :=
    fl64_eq_of_pos (e := 38) (by norm_num) (by norm_num) (by norm_num)
      (roundHalfEven_eq_down (n := 6165368779490827) (by norm_num) (by norm_num))
      (by norm_num)
  have h_sqby : fl64 ((3266721724320643 : ℚ) / 536870912 *
      ((3266721724320643 : ℚ) / 536870912)) = ((4739085046234075 : ℚ) / 128) :=
    fl64_eq_of_pos (e := 45) (by norm_num) (by norm_num) (by norm_num)
      (roundHalfEven_eq_down (n := 4739085046234075) (by norm_num) (by norm_num))
      (by norm_num)
  have h_p2 : fl64 ((6165368779490827 : ℚ) / 16384 + (4739085046234075 : ℚ) / 128) =
      ((4787251989823847 : ℚ) / 128) :=
    fl64_eq_of_pos (e := 45) (by norm_num) (by norm_num) (by norm_num)
      (roundHalfEven_eq_down (n := 4787251989823847) (by norm_num) (by norm_num))
      (by norm_num)
  have h_d1 : fl64 ((5269378762042905 : ℚ) / 8589934592 *
      ((5269378762047437 : ℚ) / 8589934592)) = ((6165368779485525 : ℚ) / 16384) :=
    fl64_eq_of_pos (e := 38) (by norm_num) (by norm_num) (by norm_num)
      (roundHalfEven_eq_up (n := 6165368779485524) (by norm_num) (by norm_num))
      (by norm_num)
  have h_d2 : fl64 ((1633360862160453 : ℚ) / 268435456 *
      ((3266721724320643 : ℚ) / 536870912)) = ((4739085046234457 : ℚ) / 128) :=
    fl64_eq_of_pos (e := 45) (by norm_num) (by norm_num) (by norm_num)
      (roundHalfEven_eq_up (n := 4739085046234456) (by norm_num) (by norm_num))
      (by norm_num)
  have h_dot : fl64 ((6165368779485525 : ℚ) / 16384 + (4739085046234457 : ℚ) / 128) =
      ((1196812997456047 : ℚ) / 32) :=
    fl64_eq_of_pos (e := 45) (by norm_num) (by norm_num) (by norm_num)
      (roundHalfEven_eq_up (n := 4787251989824187) (by norm_num) (by norm_num))
      (by norm_num)
  have h_p3 : fl64 (-2 * ((1196812997456047 : ℚ) / 32)) =
      ((-1196812997456047 : ℚ) / 16) :=
    fl64_eq_of_neg (e := 46) (by norm_num) (by norm_num) (by norm_num)
      (roundHalfEven_eq_down (n := 4787251989824188) (by norm_num) (by norm_num))
      (by norm_num)
  have h_s12 : fl64 ((4787251989824527 : ℚ) / 128 + (4787251989823847 : ℚ) / 128) =
      ((4787251989824187 : ℚ) / 64) :=
    fl64_eq_of_pos (e := 46) (by norm_num) (by norm_num) (by norm_num)
      (roundHalfEven_eq_down (n := 4787251989824187) (by norm_num) (by norm_num))
      (by norm_num)
  have h_tot : fl64 ((4787251989824187 : ℚ) / 64 + (-1196812997456047 : ℚ) / 16) =
      ((-1 : ℚ) / 64) :=
    fl64_eq_of_neg (e := -6) (by norm_num) (by norm_num) (by norm_num)
      (roundHalfEven_eq_down (n := 4503599627370496) (by norm_num) (by norm_num))
      (by norm_num)
  rw [EDMfloatRadicand]
  rw [h_sqax, h_sqay, h_p1, h_sqbx, h_sqby, h_p2, h_d1, h_d2, h_dot, h_p3,
    h_s12, h_tot]

/-- C2 (evaluation at the failing input): the binary64 evaluation of
`EDM`'s radicand at the nearly coincident pair above is exactly
`-1/64 < 0`, while the exact radicand is a true squared distance and is
nonnegative.  `EDM` takes `np.sqrt` of this negative value with no clamp,
so the distance entry is NaN, contradicting the claimed clamping and
NaN-freeness. -/
theorem EDM_radicand_float_negative :
    EDMfloatRadicand ((5269378762042905 : ℚ) / 8589934592)
        ((1633360862160453 : ℚ) / 268435456)
        ((5269378762047437 : ℚ) / 8589934592)
        ((3266721724320643 : ℚ) / 536870912) = ((-1 : ℚ) / 64) ∧
      EDMfloatRadicand ((5269378762042905 : ℚ) / 8589934592)
        ((1633360862160453 : ℚ) / 268435456)
        ((5269378762047437 : ℚ) / 8589934592)
        ((3266721724320643 : ℚ) / 536870912) < 0 ∧
      (0 : ℚ) ≤ edmRadicand
        ((5269378762042905 : ℚ) / 8589934592, (1633360862160453 : ℚ) / 268435456)
        ((5269378762047437 : ℚ) / 8589934592, (3266721724320643 : ℚ) / 536870912) :=
  ⟨EDMfloatRadicand_neg_eval, by rw [EDMfloatRadicand_neg_eval]; norm_num,
    edmRadicand_nonneg _ _⟩

/-- C4 (refutation at the failing input): at the same nearly coincident
pair the float64 distance entry of `EDM` — square root included — is NaN
(`none`): no number is produced at all, while the naive per-pair distance
is an ordinary real below 1/100.  So the float64 entry is not within 0.01
of the naive distance; the universal tolerance property fails on the
program exactly where the spec's mandated clamp is missing. -/
theorem EDM_float64_NaN_at_close_points :
    EDMfloat64 ((5269378762042905 : ℚ) / 8589934592)
        ((1633360862160453 : ℚ) / 268435456)
        ((5269378762047437 : ℚ) / 8589934592)
        ((3266721724320643 : ℚ) / 536870912) = none ∧
      naiveDist
        ((5269378762042905 : ℚ) / 8589934592, (1633360862160453 : ℚ) / 268435456)
        ((5269378762047437 : ℚ) / 8589934592, (3266721724320643 : ℚ) / 536870912) <
        1 / 100 := by
  constructor
  · rw [EDMfloat64, EDMfloatRadicand_neg_eval, if_pos (by norm_num)]
  · rw [naiveDist]
    have hval : (((((5269378762042905 : ℚ) / 8589934592,
          (1633360862160453 : ℚ) / 268435456) : ℚ × ℚ).1 : ℝ) -
          ((((5269378762047437 : ℚ) / 8589934592,
          (3266721724320643 : ℚ) / 536870912) : ℚ × ℚ).1 : ℝ)) ^ 2 +
        (((((5269378762042905 : ℚ) / 8589934592,
          (1633360862160453 : ℚ) / 268435456) : ℚ × ℚ).2 : ℝ) -
          ((((5269378762047437 : ℚ) / 8589934592,
          (3266721724320643 : ℚ) / 536870912) : ℚ × ℚ).2 : ℝ)) ^ 2 =
        (2390393 : ℝ) / 4611686018427387904 := by
      push_cast
      norm_num
    rw [hval]
    rw [show (1 : ℝ) / 100 = Real.sqrt ((1 / 100) ^ 2) from
      (Real.sqrt_sq (by norm_num)).symm]
    exact Real.sqrt_lt_sqrt (by positivity) (by norm_num)

/-- C5: the engine aborts on empty input.  `np.vstack` on the empty
geometry column raises `ValueError: need at least one array to
concatenate`, so an empty track set or an empty exposure set is an error,
not an empty report. -/
theorem show_matches_empty_input_error :
    show_matches [] siteNear 100 =
        Except.error ("need at least one array to concatenate") ∧
      show_matches trackA [] 100 =
        Except.error ("need at least one array to concatenate") :=
  ⟨rfl, rfl⟩

/-- C7: the engine is a pure function of its inputs — identical datasets
and identical `minimum_distance` give identical ordered report sequences. -/
theorem show_matches_deterministic (T₁ T₂ : List TrackPoint)
    (E₁ E₂ : List ExposureSite) (d₁ d₂ : ℚ)
    (hT : T₁ = T₂) (hE : E₁ = E₂) (hd : d₁ = d₂) :
    show_matches T₁ E₁ d₁ = show_matches T₂ E₂ d₂ := by
  subst hT; subst hE; subst hd; rfl

/-- Witness for C7: two runs on Scenario D data coincide. -/
theorem show_matches_deterministic_witness :
    show_matches trackD siteD 100 = show_matches trackD siteD 100 :=
  show_matches_deterministic trackD trackD siteD siteD 100 100 rfl rfl rfl

/-- C8: a run leaves both input datasets unchanged; the only observable
output is the report result. -/
theorem show_matches_frame (T : List TrackPoint) (E : List ExposureSite)
    (d : ℚ) :
    (show_matchesRun T E d).2 = (T, E) ∧
      (show_matchesRun T E d).1 = show_matches T E d :=
  ⟨rfl, rfl⟩

end GetXPosure
